import Mathlib

/-!
Verification of the starknet-event-query repository.

This file gives a shallow embedding, in Lean 4, of the parts of the
repository that the specification talks about:

* the fixture-stem codec (`FilterSeed::from_stem` / `parse_tail` in
  `src/filter_seed.rs`, duplicated in `src/main.rs`),
* the filter-descriptor handling of `src/main.rs` (`check_fixture`) and of
  `FilterSeed::get_filter_address_and_keys` in `src/filter_seed.rs`,
* the paged retrieval loop and the comparison loop of `check_fixture`
  (`src/main.rs`),
* the curation tools `examples/filter_address.rs` and
  `examples/filter_keys.rs` (`cond_refract`).

Rust strings are modelled as `List Char` (all separator characters used by
the grammar are ASCII, so Rust byte indices and Lean character positions
agree on the strings involved).  `u64` is modelled as `Nat` together with
explicit `< 2 ^ 64` bounds where the Rust code can overflow.  Fallible Rust
functions (returning `eyre::Result`) are modelled with `Option`, `none`
standing for the error case.  A Rust panic (which aborts fixture
processing) is likewise modelled as `none` of an outer `Option`, and each
such definition states so in its doc string.
-/

/-- Decimal value of a list of ASCII digit characters, most significant
first: the accumulator loop used to read a decimal number back. -/
def charsVal (cs : List Char) : Nat :=
  cs.foldl (fun a c => a * 10 + (c.toNat - 48)) 0

/-- One step of Rust `str::parse::<u64>`: an optional leading `'+'` sign is
accepted and skipped (`u64::from_str` accepts it). -/
def stripPlus (cs : List Char) : List Char :=
  match cs with
  | [] => []
  | c :: t => if c = '+' then t else c :: t

/-- Model of Rust `str::parse::<u64>`: an optional `'+'` sign followed by a
non-empty run of ASCII digits whose value fits in 64 bits; anything else is
an error (`none`). -/
def parseU64 (cs : List Char) : Option Nat :=
  let body := stripPlus cs
  if body ≠ [] ∧ body.all Char.isDigit then
    if charsVal body < 2 ^ 64 then some (charsVal body) else none
  else none

/-- Model of Rust `str::find(c)` followed by slicing around the match:
`splitFirst c l = some (pre, post)` when `l = pre ++ c :: post` and `c`
does not occur in `pre`; `none` when `c` does not occur in `l`. -/
def splitFirst (c : Char) : List Char → Option (List Char × List Char)
  | [] => none
  | x :: t =>
    if x = c then some ([], t)
    else
      match splitFirst c t with
      | some (a, b) => some (x :: a, b)
      | none => none

/-- The `FilterSeed` struct of `src/filter_seed.rs` (also duplicated as a
private struct in `src/main.rs`): a decoded fixture stem. -/
structure FilterSeed where
  from_block : Nat
  to_block : Nat
  with_name : Option (List Char)
deriving DecidableEq, Repr

/-- Model of `FilterSeed::parse_tail` (`src/filter_seed.rs`, lines
125-139): split the tail at the first `'w'` if any; the part before it (or
the whole tail) must parse as a `u64`, the part after it is the filter
name. -/
def FilterSeed.parse_tail (tail : List Char) : Option (Nat × Option (List Char)) :=
  match splitFirst 'w' tail with
  | some (pre, post) =>
    match parseU64 pre with
    | some n => some (n, some post)
    | none => none
  | none =>
    match parseU64 tail with
    | some n => some (n, none)
    | none => none

/-- Model of `FilterSeed::from_stem` (`src/filter_seed.rs`, lines 84-109):
split the stem at the first `'+'` if any; before it the from-block, after
it the block count and optional name, with `checked_add` for the to-block
(overflow beyond `u64` is an error). -/
def FilterSeed.from_stem (stem : List Char) : Option FilterSeed :=
  match splitFirst '+' stem with
  | some (pre, post) =>
    match parseU64 pre with
    | some fb =>
      match FilterSeed.parse_tail post with
      | some (bc, name) =>
        if fb + bc < 2 ^ 64 then some ⟨fb, fb + bc, name⟩ else none
      | none => none
    | none => none
  | none =>
    match FilterSeed.parse_tail stem with
    | some (fb, name) => some ⟨fb, fb, name⟩
    | none => none

/-- Decimal rendering of a `Nat`, most significant digit first, as Rust
`u64::to_string` produces it (`"0"` for zero, no sign, no leading
zeros). -/
def natChars (n : Nat) : List Char :=
  if n = 0 then ['0'] else ((Nat.digits 10 n).map Nat.digitChar).reverse

/-- Modelled from the spec: the stem encoding rule of §4.1 ("emit
`from_block` alone if `to_block == from_block` and no name, else
`from_block + "+" + (to_block - from_block)`, followed by
`"w" + filter_name` if a name is set").  The repository itself contains no
stem encoder (stems are produced externally; `format_filter_basename` in
`src/filter_seed.rs` reuses only the head of this rule). -/
def encodeStem (from_block to_block : Nat) (with_name : Option (List Char)) : List Char :=
  let head :=
    if to_block = from_block ∧ with_name = none then natChars from_block
    else natChars from_block ++ '+' :: natChars (to_block - from_block)
  match with_name with
  | none => head
  | some s => head ++ 'w' :: s

/-- Minimal model of `serde_json::Value` as far as the repository inspects
it: strings, numbers, booleans, null, arrays and objects (objects as
association lists with distinct keys, the shape `serde_json` parsing
produces). -/
inductive JVal where
  | str (s : String)
  | num (n : Nat)
  | boolv (b : Bool)
  | nullv
  | arr (elems : List JVal)
  | obj (fields : List (String × JVal))

/-- Lookup of a key in a parsed JSON object, as `HashMap::get` behaves on
the maps `serde_json::from_str` produces. -/
def lookupField (k : String) : List (String × JVal) → Option JVal
  | [] => none
  | (k2, v) :: t => if k2 = k then some v else lookupField k t

/-- Model of the address extraction of `check_fixture` (`src/main.rs`,
lines 119-123): `filter_map["address"]` uses the panicking `Index`
implementation of `HashMap`, so a descriptor without an `"address"` member
aborts the process.  The outer `none` models that panic; `some none`
models a present non-string value (which yields no address); `some (some
a)` a present string. -/
def mainExtractRawAddress (m : List (String × JVal)) : Option (Option String) :=
  match lookupField "address" m with
  | none => none
  | some (JVal.str a) => some (some a)
  | some _ => some none

/-- Model of the address extraction of
`FilterSeed::get_filter_address_and_keys` (`src/filter_seed.rs`, lines
37-42): `filter_map.get("address")` never panics; a missing or non-string
member yields no raw address. -/
def seedExtractRawAddress (m : List (String × JVal)) : Option String :=
  match lookupField "address" m with
  | some (JVal.str a) => some a
  | _ => none

/-- Model of the keys extraction of `FilterSeed::get_filter_address_and_keys`
(`src/filter_seed.rs`, lines 43-47): the raw `keys` member when it is an
array. -/
def seedExtractRawKeys (m : List (String × JVal)) : Option (List JVal) :=
  match lookupField "keys" m with
  | some (JVal.arr ks) => some ks
  | _ => none

/-- The Stark field modulus: `Felt` values are integers modulo this
prime. -/
def STARK_PRIME : Nat := 2 ^ 251 + 17 * 2 ^ 192 + 1

/-- ASCII hex digit test, as `hex::decode` and `Felt::from_hex` accept
(both cases). -/
def isHexChar (c : Char) : Bool :=
  c.isDigit || ('a' ≤ c && c ≤ 'f') || ('A' ≤ c && c ≤ 'F')

/-- Value of one hex digit character. -/
def hexCharVal (c : Char) : Nat :=
  if c.isDigit then c.toNat - 48
  else if 'a' ≤ c ∧ c ≤ 'f' then c.toNat - 87
  else c.toNat - 55

/-- Big-endian value of a list of hex digit characters. -/
def hexVal (cs : List Char) : Nat :=
  cs.foldl (fun a c => a * 16 + hexCharVal c) 0

/-- Model of `str::strip_prefix("0x")` (keeping the string unchanged when
the prefix is absent). -/
def strip0x (cs : List Char) : List Char :=
  match cs with
  | c0 :: c1 :: r => if c0 = '0' ∧ c1 = 'x' then r else c0 :: c1 :: r
  | l => l

/-- Model of `Felt::from_hex` from the external starknet crate (a narrow
collaborator interface): an optional `0x` prefix followed by a non-empty
run of hex digits, reduced into the Stark field; anything else is an
error. -/
def feltFromHex (s : String) : Option Nat :=
  let t := strip0x s.data
  if t ≠ [] ∧ t.all isHexChar then some (hexVal t % STARK_PRIME) else none

/-- Model of the inner loop of `FilterSeed::get_filter_address_and_keys`
(`src/filter_seed.rs`, lines 63-70): convert one alternative set; a
non-string element is the error "unexpected key type", a string element
must parse as hex. -/
def convertAlt : List JVal → Option (List Nat)
  | [] => some []
  | JVal.str k :: rest =>
    match feltFromHex k, convertAlt rest with
    | some f, some r => some (f :: r)
    | _, _ => none
  | _ :: _ => none

/-- Model of the outer keys-conversion loop of
`FilterSeed::get_filter_address_and_keys` (`src/filter_seed.rs`, lines
58-79): array-shaped elements are converted in order, elements that are
not arrays are skipped without error. -/
def convertKeys : List JVal → Option (List (List Nat))
  | [] => some []
  | JVal.arr a :: rest =>
    match convertAlt a, convertKeys rest with
    | some alt, some r => some (alt :: r)
    | _, _ => none
  | _ :: rest => convertKeys rest

/-- Shape test used to state which descriptor `keys` elements survive the
conversion: exactly the array-shaped ones. -/
def isJArr : JVal → Bool
  | JVal.arr _ => true
  | _ => false

/-- Model of the address conversion of `check_fixture` (`src/main.rs`,
lines 127-137): strip an optional `0x`, left-pad with zeros to 64 hex
digits, `hex::decode` into exactly 32 bytes (so more than 64 digits or a
non-hex digit is an error), then `Felt::from_bytes_be`. -/
def mainConvertAddress (s : String) : Option Nat :=
  let tail := strip0x s.data
  if tail.length ≤ 64 ∧ tail.all isHexChar then
    some (hexVal (List.replicate (64 - tail.length) '0' ++ tail) % STARK_PRIME)
  else none

/-- The `starknet::core::types::EventFilter` fields `check_fixture` fills
in (`src/main.rs`, lines 139-144). -/
structure EventFilter where
  from_block : Option Nat
  to_block : Option Nat
  address : Option Nat
  keys : Option (List (List Nat))
deriving DecidableEq, Repr

/-- The filter literal of `src/main.rs`, lines 139-144: block range from
the seed, the converted address, and `keys: None`. -/
def checkFixtureFilter (seed : FilterSeed) (address : Option Nat) : EventFilter :=
  { from_block := some seed.from_block
    to_block := some seed.to_block
    address := address
    keys := none }

/-- The descriptor-to-filter path of `check_fixture` for a named fixture
(`src/main.rs`, lines 112-144), from the parsed descriptor object to the
`EventFilter` passed to `get_events`; `none` models a panic (missing
`"address"` member) or an address conversion error. -/
def checkFixtureBuildFilter (seed : FilterSeed) (descriptor : List (String × JVal)) :
    Option EventFilter :=
  match mainExtractRawAddress descriptor with
  | none => none
  | some none => some (checkFixtureFilter seed none)
  | some (some s) =>
    match mainConvertAddress s with
    | some f => some (checkFixtureFilter seed (some f))
    | none => none

/-- One response of the paged transport collaborator
(`provider.get_events`): a page of events (each event the JSON object it
serializes to) and an optional continuation token. -/
structure EventPage where
  events : List (List (String × JVal))
  continuation_token : Option String

/-- Model of `event_map.remove("block_hash")` (`src/main.rs`, line 156):
the transport-only field is dropped from the event object before the event
is written out. -/
def stripBlockHash (e : List (String × JVal)) : List (String × JVal) :=
  e.filter (fun f => f.1 != "block_hash")

/-- Model of the paged retrieval loop of `check_fixture` (`src/main.rs`,
lines 145-167) run against a transport trace: the list argument holds the
responses the transport returns, in order, one per issued request.  The
result is the list of requests issued (continuation token and page size)
and the produced event sequence; `none` means the trace was exhausted
before any response without a continuation token (the loop would request
again). -/
def pagedRetrieve :
    Option String → List EventPage
      → Option (List (Option String × Nat) × List (List (String × JVal)))
  | _, [] => none
  | tok, p :: rest =>
    match p.continuation_token with
    | none => some ([(tok, 1024)], p.events.map stripBlockHash)
    | some t =>
      match pagedRetrieve (some t) rest with
      | none => none
      | some (reqs, evs) => some ((tok, 1024) :: reqs, p.events.map stripBlockHash ++ evs)

/-- Model of the comparison loop of `check_fixture` (`src/main.rs`, lines
175-179): the retrieved lines and the fixture lines are zipped and each
pair is compared (`assert_eq!`); `true` means the loop runs to completion
without a mismatch.  `zip` stops at the shorter sequence. -/
def verifyLoop {α : Type} [DecidableEq α] (actual expected : List α) : Bool :=
  (actual.zip expected).all (fun p => decide (p.1 = p.2))

/-- An event as `examples/filter_address.rs` inspects it: its
`from_address` string, plus an opaque payload standing for the rest of the
canonicalized JSON object (so that distinct events with equal addresses
stay distinguishable). -/
structure AEvent where
  from_address : String
  payload : Nat
deriving DecidableEq, Repr

/-- Number of events carrying a given address: the count
`known_addresses` accumulates in `examples/filter_address.rs`, lines
49-59. -/
def addrCount (events : List AEvent) (a : String) : Nat :=
  (events.filter (fun e => e.from_address == a)).length

/-- Insertion of a string into a sorted list, the building block of the
model of `Vec::sort` (Rust `String` ordering and Lean `String` ordering
are both lexicographic by code point, byte order on UTF-8 agreeing with
code-point order). -/
def insertSorted (a : String) : List String → List String
  | [] => [a]
  | b :: t => if a ≤ b then a :: b :: t else b :: insertSorted a t

/-- Model of `Vec::<String>::sort()`. -/
def sortStrings (l : List String) : List String :=
  l.foldr insertSorted []

/-- Model of `examples/filter_address.rs`, lines 45-66: the distinct
addresses occurring in the events whose occurrence count reaches the
repeat threshold, sorted (the `HashMap` iteration order is arbitrary, but
the final `sort` makes the result exactly the sorted list of qualifying
addresses). -/
def retainedAddresses (r : Nat) (events : List AEvent) : List String :=
  sortStrings
    (((events.map (fun e => e.from_address)).dedup).filter
      (fun a => decide (r ≤ addrCount events a)))

/-- Model of the output loop of `examples/filter_address.rs`, lines 72-90:
each retained address, paired with its 1-based filter number and the
source events carrying that address in original order. -/
def numberFilters (events : List AEvent) : Nat → List String → List (Nat × String × List AEvent)
  | _, [] => []
  | i, a :: t =>
    (i, a, events.filter (fun e => e.from_address == a)) :: numberFilters events (i + 1) t

/-- Model of the address-repetition curation `cond_refract`
(`examples/filter_address.rs`, lines 45-90) after the stem gate: the
derived filters with their numbers and derived fixtures. -/
def condRefractAddress (r : Nat) (events : List AEvent) : List (Nat × String × List AEvent) :=
  numberFilters events 1 (retainedAddresses r events)

/-- An event as `examples/filter_keys.rs` inspects it: its key sequence,
plus an opaque payload standing for the rest of the canonicalized JSON
object. -/
structure KEvent where
  keys : List String
  payload : Nat
deriving DecidableEq, Repr

/-- Model of Rust `slice::starts_with`: `listStartsWith l p` holds when
`p` is an initial segment of `l` (`examples/filter_keys.rs`, line 100). -/
def listStartsWith : List String → List String → Bool
  | _, [] => true
  | [], _ :: _ => false
  | x :: xs, p :: ps => x == p && listStartsWith xs ps

/-- The descriptor `keys` field written in ordered mode
(`examples/filter_keys.rs`, line 82): each key of the sequence wrapped as
its own single-element alternative set. -/
def orderedFilterKeys (seq : List String) : List (List String) :=
  seq.map (fun k => [k])

/-- Event acceptance in ordered mode (`examples/filter_keys.rs`, line
100): the event's key sequence starts with the filter's sequence. -/
def orderedAccept (seq : List String) (e : KEvent) : Bool :=
  listStartsWith e.keys seq

/-- Canonicalization of a key sequence in unordered mode
(`examples/filter_keys.rs`, lines 55-71): the keys sorted. -/
def canonicalKeys (keys : List String) : List String :=
  sortStrings keys

/-- The descriptor `keys` field written in unordered mode
(`examples/filter_keys.rs`, line 84): the canonical key set repeated once
per position. -/
def unorderedFilterKeys (canon : List String) : List (List String) :=
  List.replicate canon.length canon

/-- Event acceptance in unordered mode (`examples/filter_keys.rs`, lines
102-104): every key of the canonical set is contained in the event's key
sequence (viewed as a set). -/
def unorderedAccept (canon : List String) (e : KEvent) : Bool :=
  canon.all (fun k => e.keys.contains k)


theorem digitChar_toNat_sub {d : Nat} (h : d < 10) : (Nat.digitChar d).toNat - 48 = d := by
  interval_cases d <;> decide

theorem digitChar_isDigit {d : Nat} (h : d < 10) : (Nat.digitChar d).isDigit = true := by
  interval_cases d <;> decide

theorem natChars_all_digit (n : Nat) : ∀ c ∈ natChars n, c.isDigit = true := by
  intro c hc
  unfold natChars at hc
  split at hc
  · simp only [List.mem_singleton] at hc
    subst hc; decide
  · simp only [List.mem_reverse, List.mem_map] at hc
    obtain ⟨d, hd, rfl⟩ := hc
    exact digitChar_isDigit (Nat.digits_lt_base (by norm_num) hd)

theorem plus_not_mem_natChars (n : Nat) : '+' ∉ natChars n := by
  intro h
  have := natChars_all_digit n _ h
  exact absurd this (by decide)

theorem w_not_mem_natChars (n : Nat) : 'w' ∉ natChars n := by
  intro h
  have := natChars_all_digit n _ h
  exact absurd this (by decide)

theorem natChars_ne_nil (n : Nat) : natChars n ≠ [] := by
  unfold natChars
  split
  · simp
  · simp [Nat.digits_ne_nil_iff_ne_zero, *]

theorem foldl_digits_reverse (l : List Nat) (h : ∀ d ∈ l, d < 10) (acc : Nat) :
    List.foldl (fun a c => a * 10 + (c.toNat - 48)) acc ((l.map Nat.digitChar).reverse)
      = acc * 10 ^ l.length + Nat.ofDigits 10 l := by
  induction l generalizing acc with
  | nil => simp [Nat.ofDigits_nil]
  | cons d t ih =>
    have hd : d < 10 := h d (List.mem_cons_self d t)
    have ht : ∀ x ∈ t, x < 10 := fun x hx => h x (List.mem_cons_of_mem d hx)
    simp only [List.map_cons, List.reverse_cons, List.foldl_append, List.foldl_cons,
      List.foldl_nil, ih ht acc, Nat.ofDigits_cons, List.length_cons,
      digitChar_toNat_sub hd]
    ring

theorem charsVal_natChars (n : Nat) : charsVal (natChars n) = n := by
  unfold natChars charsVal
  split
  · simp [*]
  · rw [foldl_digits_reverse _ (fun d hd => Nat.digits_lt_base (by norm_num) hd) 0]
    simp [Nat.ofDigits_digits]

theorem stripPlus_natChars (n : Nat) : stripPlus (natChars n) = natChars n := by
  rcases hne : natChars n with _ | ⟨c, t⟩
  · exact absurd hne (natChars_ne_nil n)
  · have hc : c.isDigit = true := by
      apply natChars_all_digit n
      rw [hne]; exact List.mem_cons_self c t
    have : c ≠ '+' := by
      intro h; subst h; exact absurd hc (by decide)
    simp [stripPlus, this]

theorem parseU64_natChars {n : Nat} (h : n < 2 ^ 64) : parseU64 (natChars n) = some n := by
  unfold parseU64
  rw [stripPlus_natChars]
  rw [if_pos ⟨natChars_ne_nil n, List.all_eq_true.2 (fun c hc => natChars_all_digit n c hc)⟩]
  rw [charsVal_natChars]
  exact if_pos h

theorem splitFirst_of_not_mem {c : Char} {l : List Char} (h : c ∉ l) :
    splitFirst c l = none := by
  induction l with
  | nil => rfl
  | cons x t ih =>
    have hx : x ≠ c := fun he => h (he ▸ List.mem_cons_self x t)
    have ht : c ∉ t := fun he => h (List.mem_cons_of_mem x he)
    simp [splitFirst, hx, ih ht]

theorem splitFirst_append {c : Char} {pre post : List Char} (h : c ∉ pre) :
    splitFirst c (pre ++ c :: post) = some (pre, post) := by
  induction pre with
  | nil => simp [splitFirst]
  | cons x t ih =>
    have hx : x ≠ c := fun he => h (he ▸ List.mem_cons_self x t)
    have ht : c ∉ t := fun he => h (List.mem_cons_of_mem x he)
    simp [splitFirst, hx, ih ht]

theorem parse_tail_natChars {n : Nat} (h : n < 2 ^ 64) :
    FilterSeed.parse_tail (natChars n) = some (n, none) := by
  unfold FilterSeed.parse_tail
  rw [splitFirst_of_not_mem (w_not_mem_natChars n)]
  simp [parseU64_natChars h]

theorem parse_tail_natChars_w {n : Nat} (h : n < 2 ^ 64) (s : List Char) :
    FilterSeed.parse_tail (natChars n ++ 'w' :: s) = some (n, some s) := by
  unfold FilterSeed.parse_tail
  rw [splitFirst_append (w_not_mem_natChars n)]
  simp [parseU64_natChars h]

/-- C2: for every valid value `{from_block, to_block, filter_name}` with
`to_block ≥ from_block` (and `to_block` within the `u64` range used by the
code), decoding (`FilterSeed::from_stem`) the stem produced by the spec's
encoding rule returns exactly the original value. -/
theorem from_stem_encode_roundtrip (fb tb : Nat) (name : Option (List Char))
    (hle : fb ≤ tb) (hlt : tb < 2 ^ 64) :
    FilterSeed.from_stem (encodeStem fb tb name) = some ⟨fb, tb, name⟩ := by
  have hfb : fb < 2 ^ 64 := lt_of_le_of_lt hle hlt
  have hcnt : tb - fb < 2 ^ 64 := lt_of_le_of_lt (Nat.sub_le tb fb) hlt
  cases name with
  | none =>
    by_cases heq : tb = fb
    · subst heq
      have he : encodeStem tb tb none = natChars tb := by
        simp [encodeStem]
      rw [he]
      unfold FilterSeed.from_stem
      rw [splitFirst_of_not_mem (plus_not_mem_natChars tb)]
      simp [parse_tail_natChars hlt]
    · have he : encodeStem fb tb none = natChars fb ++ '+' :: natChars (tb - fb) := by
        simp [encodeStem, heq]
      rw [he]
      unfold FilterSeed.from_stem
      rw [splitFirst_append (plus_not_mem_natChars fb)]
      simp only [parseU64_natChars hfb, parse_tail_natChars hcnt]
      rw [Nat.add_sub_cancel' hle, if_pos hlt]
  | some s =>
    have he : encodeStem fb tb (some s)
        = natChars fb ++ '+' :: (natChars (tb - fb) ++ 'w' :: s) := by
      simp [encodeStem, List.append_assoc]
    rw [he]
    unfold FilterSeed.from_stem
    rw [splitFirst_append (plus_not_mem_natChars fb)]
    simp only [parseU64_natChars hfb, parse_tail_natChars_w hcnt]
    rw [Nat.add_sub_cancel' hle, if_pos hlt]

/-- Witness for C2: the round trip evaluated at the concrete value
`{from_block := 100, to_block := 105, filter_name := "3"}`. -/
theorem from_stem_encode_roundtrip_witness :
    100 ≤ 105 ∧ (105 : Nat) < 2 ^ 64 ∧
      FilterSeed.from_stem (encodeStem 100 105 (some ['3'])) = some ⟨100, 105, some ['3']⟩ :=
  ⟨by norm_num, by norm_num,
    from_stem_encode_roundtrip 100 105 (some ['3']) (by norm_num) (by norm_num)⟩

/-- C5 counterexample: the claim says decoding the stem `"100+0"` fails
with `MalformedStem`; in the code `FilterSeed::from_stem` accepts it (Rust
`str::parse::<u64>` parses `"0"`), returning
`{from_block := 100, to_block := 100, with_name := None}`. -/
theorem from_stem_zero_block_count_accepted :
    FilterSeed.from_stem ['1', '0', '0', '+', '0'] = some ⟨100, 100, none⟩ := by
  decide

/-- C5 amended: decoding a stem whose block-count component is `0` or has
leading zeros succeeds; `from_stem` parses the count with plain `u64`
parsing (`"100+0"` gives `{100, 100, None}` and `"100+007"` gives
`{100, 107, None}`).  The no-leading-zero / `≥ 1` restriction is enforced
only by the curation tools' stem-selection regex, not by decoding. -/
theorem from_stem_leading_zero_amended :
    FilterSeed.from_stem ['1', '0', '0', '+', '0'] = some ⟨100, 100, none⟩ ∧
      FilterSeed.from_stem ['1', '0', '0', '+', '0', '0', '7'] = some ⟨100, 107, none⟩ := by
  constructor
  · decide
  · decide

/-- C9: the claim says that for a descriptor object with no `"address"`
member, extracting the address during fixture processing does not panic and
the filter is built with `address = None`.  The code disagrees:
`check_fixture` (`src/main.rs`) indexes `filter_map["address"]`, whose
`HashMap` `Index` implementation panics on a missing key, so no filter is
built at all (`none` here models the panic); the library function
`FilterSeed::get_filter_address_and_keys` (`src/filter_seed.rs`) uses
`.get` and returns no address, as the claim describes. -/
theorem checkFixture_missing_address_panics :
    checkFixtureBuildFilter ⟨100, 100, some ['1']⟩ [("keys", JVal.arr [])] = none
      ∧ mainExtractRawAddress [("keys", JVal.arr [])] = none
      ∧ seedExtractRawAddress [("keys", JVal.arr [])] = none := by
  exact ⟨rfl, rfl, rfl⟩

/-- C10: for every descriptor `keys` array, the conversion in
`FilterSeed::get_filter_address_and_keys` silently drops the elements that
are not themselves arrays and keeps exactly the converted array-shaped
elements in their original order (so a stray string or number never causes
an error by itself); evaluated concretely on
`["nope", ["0x1"], 7, []]`, which converts to `[[1], []]`. -/
theorem convertKeys_drops_non_arrays :
    (∀ outer : List JVal, convertKeys outer = convertKeys (outer.filter isJArr))
      ∧ convertKeys [JVal.str "nope", JVal.arr [JVal.str "0x1"], JVal.num 7, JVal.arr []]
          = some [[1], []] := by
  constructor
  · intro outer
    induction outer with
    | nil => rfl
    | cons j rest ih =>
      cases j <;> simp [convertKeys, isJArr, ih]
  · rfl

/-- C4 counterexample: the claim says the paged retrieval passes the
key alternative-sets derived from the descriptor; for the named seed
`{100, 105, "1"}` with descriptor `{"address": "0x1", "keys": [["0x2"]]}`
the filter actually built by `check_fixture` has `keys = none`, although
the declared keys convert to `[[2]]`. -/
theorem checkFixture_declared_keys_dropped :
    checkFixtureBuildFilter ⟨100, 105, some ['1']⟩
        [("address", JVal.str "0x1"), ("keys", JVal.arr [JVal.arr [JVal.str "0x2"]])]
      = some ⟨some 100, some 105, some 1, none⟩
    ∧ convertKeys [JVal.arr [JVal.str "0x2"]] = some [[2]] := by
  exact ⟨rfl, rfl⟩

/-- C4 amended: whenever `check_fixture` builds a filter at all, that
filter carries the stem's block range and has `keys = none` — the key
alternative-sets of the descriptor are never passed to `getEvents` by the
paged retrieval. -/
theorem checkFixture_filter_keys_none (seed : FilterSeed)
    (descriptor : List (String × JVal)) (filt : EventFilter)
    (h : checkFixtureBuildFilter seed descriptor = some filt) :
    filt.keys = none ∧ filt.from_block = some seed.from_block
      ∧ filt.to_block = some seed.to_block := by
  unfold checkFixtureBuildFilter at h
  split at h
  · exact absurd h (by simp)
  · simp only [Option.some.injEq] at h
    subst h
    exact ⟨rfl, rfl, rfl⟩
  · split at h
    · simp only [Option.some.injEq] at h
      subst h
      exact ⟨rfl, rfl, rfl⟩
    · exact absurd h (by simp)

/-- Witness for C4's amended theorem at the seed `{7, 9, "2"}` with
descriptor `{"address": "0x3"}`. -/
theorem checkFixture_filter_keys_none_witness :
    checkFixtureBuildFilter ⟨7, 9, some ['2']⟩ [("address", JVal.str "0x3")]
        = some ⟨some 7, some 9, some 3, none⟩
      ∧ ((⟨some 7, some 9, some 3, none⟩ : EventFilter).keys = none
          ∧ (⟨some 7, some 9, some 3, none⟩ : EventFilter).from_block = some 7
          ∧ (⟨some 7, some 9, some 3, none⟩ : EventFilter).to_block = some 9) :=
  ⟨rfl, checkFixture_filter_keys_none ⟨7, 9, some ['2']⟩ [("address", JVal.str "0x3")]
    ⟨some 7, some 9, some 3, none⟩ rfl⟩

theorem pagedRetrieve_go (tok : Option String) (pages : List EventPage) (last : EventPage)
    (extra : List EventPage) (hmid : ∀ p ∈ pages, p.continuation_token ≠ none)
    (hlast : last.continuation_token = none) :
    pagedRetrieve tok (pages ++ last :: extra)
      = some ((tok, 1024) :: pages.map (fun p => (p.continuation_token, 1024)),
          ((pages ++ [last]).map (fun p => p.events.map stripBlockHash)).flatten) := by
  induction pages generalizing tok with
  | nil =>
    simp [pagedRetrieve, hlast]
  | cons p ps ih =>
    have hp : p.continuation_token ≠ none := hmid p (List.mem_cons_self p ps)
    rcases ht : p.continuation_token with _ | t
    · exact absurd ht hp
    · have hmid2 : ∀ q ∈ ps, q.continuation_token ≠ none :=
        fun q hq => hmid q (List.mem_cons_of_mem p hq)
      simp only [List.cons_append, pagedRetrieve, ht, List.append_eq, ih (some t) hmid2,
        List.map_cons, List.flatten_cons]

/-- C3: paged retrieval over a transport trace that answers the requests
in order starts with no continuation token, requests every page with the
fixed size 1024, advances to each response's continuation token, stops
exactly at the first response carrying no token (later responses are never
requested), and produces the concatenation, in page order, of the pages'
events with the transport-only `block_hash` field removed. -/
theorem pagedRetrieve_spec (pages : List EventPage) (last : EventPage)
    (extra : List EventPage) (hmid : ∀ p ∈ pages, p.continuation_token ≠ none)
    (hlast : last.continuation_token = none) :
    pagedRetrieve none (pages ++ last :: extra)
      = some ((none, 1024) :: pages.map (fun p => (p.continuation_token, 1024)),
          ((pages ++ [last]).map (fun p => p.events.map stripBlockHash)).flatten) :=
  pagedRetrieve_go none pages last extra hmid hlast

/-- Witness for C3: a trace of two pages (the first with a continuation
token and a `block_hash`-bearing event, the second final) followed by an
ignored extra response. -/
theorem pagedRetrieve_spec_witness :
    (∀ p ∈ [EventPage.mk [[("block_hash", JVal.str "h"), ("data", JVal.arr [])]] (some "t1")],
        p.continuation_token ≠ none)
    ∧ (EventPage.mk [[("from_address", JVal.str "0x1")]] none).continuation_token = none
    ∧ pagedRetrieve none
        ([EventPage.mk [[("block_hash", JVal.str "h"), ("data", JVal.arr [])]] (some "t1")]
          ++ EventPage.mk [[("from_address", JVal.str "0x1")]] none
            :: [EventPage.mk [] none])
      = some ((none, 1024)
            :: [EventPage.mk [[("block_hash", JVal.str "h"), ("data", JVal.arr [])]]
                (some "t1")].map (fun p => (p.continuation_token, 1024)),
          (([EventPage.mk [[("block_hash", JVal.str "h"), ("data", JVal.arr [])]] (some "t1")]
              ++ [EventPage.mk [[("from_address", JVal.str "0x1")]] none]).map
            (fun p => p.events.map stripBlockHash)).flatten) :=
  ⟨by decide, rfl,
    pagedRetrieve_spec
      [EventPage.mk [[("block_hash", JVal.str "h"), ("data", JVal.arr [])]] (some "t1")]
      (EventPage.mk [[("from_address", JVal.str "0x1")]] none)
      [EventPage.mk [] none] (by decide) rfl⟩

/-- C1 (code bug): the claim — and the spec — require the comparison loop
of `check_fixture` to fail on a pure length mismatch; the loop however
zips the two line sequences, so whenever the retrieved sequence is a
proper initial segment of the fixture (or vice versa) the extra elements
are silently ignored and verification succeeds.  Concretely, one retrieved
event versus a two-event fixture agreeing at index 0 verifies, although
the lengths differ. -/
theorem verifyLoop_passes_truncated :
    (∀ (actual extension : List (List (String × String))),
        verifyLoop actual (actual ++ extension) = true)
      ∧ verifyLoop [[("from_address", "0x1")]]
          [[("from_address", "0x1")], [("from_address", "0x2")]] = true
      ∧ ([[("from_address", "0x1")]] : List (List (String × String))).length
          ≠ ([[("from_address", "0x1")], [("from_address", "0x2")]] :
              List (List (String × String))).length := by
  refine ⟨?_, by decide, by decide⟩
  intro actual extension
  induction actual with
  | nil => rfl
  | cons a t ih =>
    simp only [verifyLoop, List.cons_append, List.zip_cons_cons, List.all_cons] at ih ⊢
    simp [ih]

theorem listStartsWith_iff (l p : List String) :
    listStartsWith l p = true ↔ ∃ rest, l = p ++ rest := by
  induction p generalizing l with
  | nil => simp [listStartsWith]
  | cons q ps ih =>
    cases l with
    | nil => simp [listStartsWith]
    | cons x xs =>
      simp only [listStartsWith, Bool.and_eq_true, beq_iff_eq, ih, List.cons_append,
        List.cons.injEq]
      constructor
      · rintro ⟨rfl, rest, rfl⟩
        exact ⟨rest, rfl, rfl⟩
      · rintro ⟨rest, rfl, rfl⟩
        exact ⟨rfl, rest, rfl⟩

/-- C7: the ordered-key filter derived from the key sequence `[k1, k2]`
is written as the descriptor `keys = [[k1], [k2]]`, and an event is
selected exactly when its key sequence starts with `k1` then `k2` in that
order (strict positional initial-segment match); in particular the event
with keys `[k1, k2, k3]` matches and the event with keys `[k2, k1]` does
not. -/
theorem orderedKeyFilter_semantics (k1 k2 k3 : String) (e : KEvent) (hne : k1 ≠ k2) :
    orderedFilterKeys [k1, k2] = [[k1], [k2]]
      ∧ (orderedAccept [k1, k2] e = true ↔ ∃ rest, e.keys = k1 :: k2 :: rest)
      ∧ orderedAccept [k1, k2] ⟨[k1, k2, k3], 0⟩ = true
      ∧ orderedAccept [k1, k2] ⟨[k2, k1], 0⟩ = false := by
  refine ⟨rfl, ?_, ?_, ?_⟩
  · simpa [orderedAccept] using listStartsWith_iff e.keys [k1, k2]
  · simp [orderedAccept, listStartsWith]
  · simp [orderedAccept, listStartsWith, Ne.symm hne]

/-- Witness for C7 at the keys `"0xa"`, `"0xb"`, `"0xc"` and the event
with key sequence `["0xa", "0xb", "0xz"]`. -/
theorem orderedKeyFilter_semantics_witness :
    ("0xa" : String) ≠ "0xb"
      ∧ (orderedFilterKeys ["0xa", "0xb"] = [["0xa"], ["0xb"]]
          ∧ (orderedAccept ["0xa", "0xb"] ⟨["0xa", "0xb", "0xz"], 5⟩ = true
              ↔ ∃ rest, (⟨["0xa", "0xb", "0xz"], 5⟩ : KEvent).keys = "0xa" :: "0xb" :: rest)
          ∧ orderedAccept ["0xa", "0xb"] ⟨["0xa", "0xb", "0xc"], 0⟩ = true
          ∧ orderedAccept ["0xa", "0xb"] ⟨["0xb", "0xa"], 0⟩ = false) :=
  ⟨by decide, orderedKeyFilter_semantics "0xa" "0xb" "0xc" ⟨["0xa", "0xb", "0xz"], 5⟩ (by decide)⟩

theorem mem_insertSorted (a b : String) (l : List String) :
    a ∈ insertSorted b l ↔ a = b ∨ a ∈ l := by
  induction l with
  | nil => simp [insertSorted]
  | cons x t ih =>
    simp only [insertSorted]
    split
    · simp
    · simp [ih]
      tauto

theorem mem_sortStrings (a : String) (l : List String) :
    a ∈ sortStrings l ↔ a ∈ l := by
  induction l with
  | nil => simp [sortStrings]
  | cons x t ih =>
    simp only [sortStrings, List.foldr_cons] at ih ⊢
    rw [mem_insertSorted]
    simp [ih]

/-- C8: in unordered-key curation, the written descriptor's `keys` field
is the canonical (sorted) key sequence repeated once per position, so its
length equals the number of keys of the canonical set; and an event is
selected if and only if its own key sequence, viewed as a set, contains
every key of the set — regardless of key order or extra keys. -/
theorem unorderedKeyFilter_semantics (keys : List String) (e : KEvent) :
    (unorderedFilterKeys (canonicalKeys keys)).length = (canonicalKeys keys).length
      ∧ (unorderedAccept (canonicalKeys keys) e = true ↔ ∀ k ∈ keys, k ∈ e.keys) := by
  constructor
  · simp [unorderedFilterKeys]
  · simp [unorderedAccept, canonicalKeys, List.all_eq_true, mem_sortStrings]

theorem perm_pair_eq {α : Type} {l : List α} {a b : α} (h : l.Perm [a, b]) :
    l = [a, b] ∨ l = [b, a] := by
  obtain ⟨x, y, rfl⟩ : ∃ x y, l = [x, y] := List.length_eq_two.1 (by simpa using h.length_eq)
  have hx : x = a ∨ x = b := by simpa using h.subset (List.mem_cons_self x [y])
  rcases hx with hx | hx
  · left
    have h1 : ([x, y] : List α).Perm [x, b] := by
      rw [hx] at h ⊢
      exact h
    have h2 : y = b := by simpa using List.perm_singleton.1 h1.cons_inv
    rw [hx, h2]
  · right
    have h1 : ([x, y] : List α).Perm [x, a] := by
      rw [hx] at h ⊢
      exact h.trans (List.Perm.swap a b []).symm
    have h2 : y = a := by simpa using List.perm_singleton.1 h1.cons_inv
    rw [hx, h2]

theorem sortStrings_pair (x y : String) :
    sortStrings [x, y] = if x ≤ y then [x, y] else [y, x] := by
  simp [sortStrings, insertSorted]

theorem addrCount_perm (events : List AEvent) (ms : List String) (x : String)
    (h : (events.map (fun e => e.from_address)).Perm ms) :
    addrCount events x = (ms.filter (fun s => s == x)).length := by
  have h1 := (h.filter (fun s => s == x)).length_eq
  rw [List.filter_map] at h1
  simpa [addrCount, Function.comp] using h1

/-- C6: address-repetition curation with repeat threshold 2 over events
whose addresses are, in any order, `[a, a, b, c, c]` (with `a`, `b`, `c`
pairwise distinct) yields exactly two derived filters, for `a` and `c`,
numbered 1 and 2 in lexicographic order of address value, and filter `i`'s
derived fixture is exactly the source events whose `from_address` equals
the `i`-th retained address, in their original relative order. -/
theorem addrCuration_spec (events : List AEvent) (a b c : String)
    (hab : a ≠ b) (hac : a ≠ c) (hbc : b ≠ c)
    (h : (events.map (fun e => e.from_address)).Perm [a, a, b, c, c]) :
    condRefractAddress 2 events =
      if a ≤ c then
        [(1, a, events.filter (fun e => e.from_address == a)),
          (2, c, events.filter (fun e => e.from_address == c))]
      else
        [(1, c, events.filter (fun e => e.from_address == c)),
          (2, a, events.filter (fun e => e.from_address == a))] := by
  have hca : addrCount events a = 2 := by
    rw [addrCount_perm events _ a h]
    simp [Ne.symm hab, Ne.symm hac]
  have hcb : addrCount events b = 1 := by
    rw [addrCount_perm events _ b h]
    simp [hab, Ne.symm hbc]
  have hcc : addrCount events c = 2 := by
    rw [addrCount_perm events _ c h]
    simp [hac, hbc, Ne.symm hac]
  have hd5 : ([a, a, b, c, c] : List String).dedup = [a, b, c] := by
    rw [List.dedup_cons_of_mem (by simp)]
    rw [List.dedup_cons_of_not_mem (by simp [hab, hac])]
    rw [List.dedup_cons_of_not_mem (by simp [hbc])]
    rw [List.dedup_cons_of_mem (by simp)]
    rw [List.dedup_cons_of_not_mem (by simp)]
    rw [List.dedup_nil]
  have hdperm : ((events.map (fun e => e.from_address)).dedup).Perm [a, b, c] :=
    hd5 ▸ h.dedup
  have hfperm :
      (((events.map (fun e => e.from_address)).dedup).filter
          (fun s => decide (2 ≤ addrCount events s))).Perm [a, c] := by
    have h1 := hdperm.filter (fun s => decide (2 ≤ addrCount events s))
    simpa [List.filter, hca, hcb, hcc] using h1
  have hret : retainedAddresses 2 events = if a ≤ c then [a, c] else [c, a] := by
    unfold retainedAddresses
    rcases perm_pair_eq hfperm with he | he
    · rw [he, sortStrings_pair]
    · rw [he, sortStrings_pair]
      rcases lt_trichotomy a c with hlt | heq | hgt
      · rw [if_neg (not_le.2 hlt), if_pos (le_of_lt hlt)]
      · exact absurd heq hac
      · rw [if_pos (le_of_lt hgt), if_neg (not_le.2 hgt)]
  rw [condRefractAddress, hret]
  split
  · rfl
  · rfl

/-- Witness for C6: five concrete events with addresses
`["0xb", "0xa", "0xc", "0xa", "0xc"]`. -/
theorem addrCuration_spec_witness :
    ("0xa" : String) ≠ "0xb" ∧ ("0xa" : String) ≠ "0xc" ∧ ("0xb" : String) ≠ "0xc"
      ∧ (([⟨"0xb", 0⟩, ⟨"0xa", 1⟩, ⟨"0xc", 2⟩, ⟨"0xa", 3⟩, ⟨"0xc", 4⟩] :
            List AEvent).map (fun e => e.from_address)).Perm ["0xa", "0xa", "0xb", "0xc", "0xc"]
      ∧ condRefractAddress 2 [⟨"0xb", 0⟩, ⟨"0xa", 1⟩, ⟨"0xc", 2⟩, ⟨"0xa", 3⟩, ⟨"0xc", 4⟩] =
          if ("0xa" : String) ≤ "0xc" then
            [(1, "0xa", ([⟨"0xb", 0⟩, ⟨"0xa", 1⟩, ⟨"0xc", 2⟩, ⟨"0xa", 3⟩, ⟨"0xc", 4⟩] :
                List AEvent).filter (fun e => e.from_address == "0xa")),
              (2, "0xc", ([⟨"0xb", 0⟩, ⟨"0xa", 1⟩, ⟨"0xc", 2⟩, ⟨"0xa", 3⟩, ⟨"0xc", 4⟩] :
                List AEvent).filter (fun e => e.from_address == "0xc"))]
          else
            [(1, "0xc", ([⟨"0xb", 0⟩, ⟨"0xa", 1⟩, ⟨"0xc", 2⟩, ⟨"0xa", 3⟩, ⟨"0xc", 4⟩] :
                List AEvent).filter (fun e => e.from_address == "0xc")),
              (2, "0xa", ([⟨"0xb", 0⟩, ⟨"0xa", 1⟩, ⟨"0xc", 2⟩, ⟨"0xa", 3⟩, ⟨"0xc", 4⟩] :
                List AEvent).filter (fun e => e.from_address == "0xa"))] :=
  ⟨by decide, by decide, by decide, by decide,
    addrCuration_spec [⟨"0xb", 0⟩, ⟨"0xa", 1⟩, ⟨"0xc", 2⟩, ⟨"0xa", 3⟩, ⟨"0xc", 4⟩]
      "0xa" "0xb" "0xc" (by decide) (by decide) (by decide) (by decide)⟩
